import Mathlib

/-!
Verification development for the CUDA-graph capture/replay cache of
`sfast/cuda/graphs.py` (the single source file of this repository).

The Python module is shallowly embedded as follows.

* Python runtime values that can appear among call arguments are modelled by
  the inductive type `Value`: tensors, `int`/`bool`/`str` scalars, lists,
  tuples, `dict`s with string keys (the keys of `kwargs` dictionaries),
  `None`, `torch.dtype` objects (which occur as components of the tuples that
  `hash_arg` itself builds) and a catch-all constructor `otherV` for any
  object the module treats as opaque.  `float` and `bytes` scalars are not
  modelled; no claim mentions them and they behave exactly like the modelled
  `int`/`str` scalars in every branch of the source.
* A tensor is modelled by its device type string, optional device index,
  dtype (an opaque code), shape, flattened contents, and the address of its
  buffer.  The address models object identity of the underlying storage and
  is ignored by every function of the source except `copy.deepcopy`, which
  allocates fresh storage.
* Functions of the source are translated one by one: `hash_arg`,
  `tree_copy_`, `get_cuda_device_from_tensors`,
  `get_per_device_graph_execution_env` (with the process-wide registry made
  an explicit state value), `make_dynamic_graphed_callable`'s inner
  `dynamic_graphed_callable` (with its per-wrapper cache made an explicit
  state value, and an invocation counter standing for the number of times the
  capture path `simple_make_graphed_callable` runs), and the replay wrapper
  `_GraphedModule.forward`.  GPU work itself (stream manipulation, the CUDA
  graph object, kernel execution) is external to the module and is not
  modelled; the claims under verification are about the pure bookkeeping
  around it.
-/

namespace SFast

/-- Model of a `torch.Tensor` as the source observes it: `device.type`,
`device.index` (`none` for CPU tensors), `dtype` as an opaque code, `shape`,
the flattened element data (element values are abstracted as integers), and
`addr`, the identity of the underlying storage buffer (used only to model
`copy.deepcopy`, which allocates a fresh buffer). -/
structure Tensor where
  deviceType : String
  deviceIndex : Option Int
  dtype : Nat
  shape : List Nat
  data : List Int
  addr : Nat
deriving DecidableEq, Repr

/-- Python `Tensor.numel()`: the number of elements, the product of the
shape's dimensions. -/
def Tensor.numel (t : Tensor) : Nat := t.shape.prod

/-- Python `Tensor.item()`: the value of the single element of a
one-element tensor. -/
def Tensor.item (t : Tensor) : Int := t.data.headI

/-- Python runtime values as observed by the source module.  `dtypeObj`
models a `torch.dtype` object occurring as a value (the tuples built by
`hash_arg` contain such objects); `otherV` models every object of a type the
module does not inspect. -/
inductive Value where
  | tensor : Tensor → Value
  | intV : Int → Value
  | boolV : Bool → Value
  | strV : String → Value
  | listV : List Value → Value
  | tupleV : List Value → Value
  | dictV : List (String × Value) → Value
  | noneV : Value
  | dtypeObj : Nat → Value
  | otherV : Nat → Value

/-- Embedding of a Python `int` dimension taken from a `torch.Size`. -/
def natVal (n : Nat) : Value := Value.intV (Int.ofNat n)

mutual

/-- Structural equality of values, modelling Python `==` / dict-key equality
on the values the module handles (a `DecidableEq` instance cannot be derived
for this nested inductive type, so the Boolean test is given by recursion). -/
def Value.beq : Value → Value → Bool
  | .tensor a, .tensor b => decide (a = b)
  | .intV a, .intV b => a == b
  | .boolV a, .boolV b => a == b
  | .strV a, .strV b => a == b
  | .listV a, .listV b => Value.beqList a b
  | .tupleV a, .tupleV b => Value.beqList a b
  | .dictV a, .dictV b => Value.beqEntries a b
  | .noneV, .noneV => true
  | .dtypeObj a, .dtypeObj b => a == b
  | .otherV a, .otherV b => a == b
  | _, _ => false

def Value.beqList : List Value → List Value → Bool
  | [], [] => true
  | x :: xs, y :: ys => Value.beq x y && Value.beqList xs ys
  | _, _ => false

def Value.beqEntries : List (String × Value) → List (String × Value) → Bool
  | [], [] => true
  | (k, v) :: xs, (k2, v2) :: ys => k == k2 && (Value.beq v v2 && Value.beqEntries xs ys)
  | _, _ => false

end

mutual

theorem Value.beq_refl : ∀ a : Value, Value.beq a a = true
  | .tensor a => by simp [Value.beq]
  | .intV a => by simp [Value.beq]
  | .boolV a => by simp [Value.beq]
  | .strV a => by simp [Value.beq]
  | .listV xs => by simp [Value.beq, Value.beqList_refl xs]
  | .tupleV xs => by simp [Value.beq, Value.beqList_refl xs]
  | .dictV es => by simp [Value.beq, Value.beqEntries_refl es]
  | .noneV => by simp [Value.beq]
  | .dtypeObj a => by simp [Value.beq]
  | .otherV a => by simp [Value.beq]

theorem Value.beqList_refl : ∀ xs : List Value, Value.beqList xs xs = true
  | [] => by simp [Value.beqList]
  | x :: xs => by simp [Value.beqList, Value.beq_refl x, Value.beqList_refl xs]

theorem Value.beqEntries_refl : ∀ es : List (String × Value), Value.beqEntries es es = true
  | [] => by simp [Value.beqEntries]
  | (k, v) :: es => by simp [Value.beqEntries, Value.beq_refl v, Value.beqEntries_refl es]

end

/-- Embedding of a Python `device.index` (an `int` or `None`) as a value. -/
def optIndexVal : Option Int → Value
  | some i => .intV i
  | none => .noneV

/-- The tensor branch of `hash_arg`:
`(arg_device_type, arg_device.index, arg.dtype, arg.shape, arg.item() if
arg_device_type == 'cpu' and arg.numel() == 1 else None)`.  The `shape`
component is a `torch.Size`, a tuple of ints. -/
def hashTensor (t : Tensor) : Value :=
  .tupleV [.strV t.deviceType, optIndexVal t.deviceIndex, .dtypeObj t.dtype,
    .tupleV (t.shape.map natVal),
    if t.deviceType = "cpu" ∧ t.numel = 1 then Value.intV t.item else Value.noneV]

mutual

/-- Action of `hash_arg` on a value that is already the result of a previous
`hash_arg` application.  The dict branch of the source applies `hash_arg` a
second time to each sorted `(key, hash_arg(value))` pair; this function is
that second application, written as its own structural recursion so that the
whole definition terminates.  The theorem `hash_arg_self_eq_rehash` below
proves that `rehash` agrees with `hash_arg` on every `hash_arg` result, so
the embedding of the dict branch is exact.  Branches: a `torch.dtype` object
and `None` match none of the `isinstance` tests of the source and fall to
the final `return None`; `str`/`int`/`bool` are returned unchanged; tuples
(including `torch.Size`) recurse elementwise. -/
def rehash : Value → Value
  | .tensor t => hashTensor t
  | .intV n => .intV n
  | .boolV b => .boolV b
  | .strV s => .strV s
  | .listV xs => .tupleV (rehashList xs)
  | .tupleV xs => .tupleV (rehashList xs)
  | _ => .noneV

def rehashList : List Value → List Value
  | [] => []
  | x :: xs => rehash x :: rehashList xs

end

/-- Order on the `(key, hash_arg(value))` pairs used by the source's
`sorted(..., key=lambda x: x[0])`: compare by key. -/
def keyLE (p q : String × Value) : Prop := p.1 ≤ q.1

/-- Strict version of `keyLE`, used to reason about sorted entry lists with
distinct keys. -/
def keyLT (p q : String × Value) : Prop := p.1 < q.1

instance : DecidableRel keyLE := fun p q => inferInstanceAs (Decidable (p.1 ≤ q.1))

instance : IsTotal (String × Value) keyLE := ⟨fun p q => le_total p.1 q.1⟩

instance : IsTrans (String × Value) keyLE := ⟨fun _ _ _ h h2 => le_trans h h2⟩

instance : IsAntisymm (String × Value) keyLT :=
  ⟨fun _ _ h h2 => absurd h2 (lt_asymm h)⟩

/-- Embedding of `hash_arg` applied to one sorted `(key, hash_arg(value))`
pair: `hash_arg((k, hv))` takes the tuple branch and yields
`(hash_arg(k), hash_arg(hv)) = (k, rehash hv)` since `k` is a string. -/
def rehashPair (kv : String × Value) : Value := .tupleV [.strV kv.1, rehash kv.2]

mutual

/-- Embedding of `hash_arg` from the source, branch by branch:
tensors map to `hashTensor`; `int`/`bool`/`str` scalars are returned
unchanged; lists and tuples map to the tuple of element hashes; for a dict,
the pairs `(k, hash_arg(v))` are built, sorted by key, and `hash_arg` is
mapped over the sorted pairs (that second application is `rehashPair`, see
`rehash` and `hash_arg_self_eq_rehash`); every other value — including
`None` and `torch.dtype` objects — falls to the final `return None`. -/
def hash_arg : Value → Value
  | .tensor t => hashTensor t
  | .intV n => .intV n
  | .boolV b => .boolV b
  | .strV s => .strV s
  | .listV xs => .tupleV (hashList xs)
  | .tupleV xs => .tupleV (hashList xs)
  | .dictV es => .tupleV ((List.insertionSort keyLE (hashEntries es)).map rehashPair)
  | _ => .noneV

def hashList : List Value → List Value
  | [] => []
  | x :: xs => hash_arg x :: hashList xs

def hashEntries : List (String × Value) → List (String × Value)
  | [] => []
  | (k, v) :: rest => (k, hash_arg v) :: hashEntries rest

end

mutual

/-- Values that contain no dict (and no tensor, list or opaque object)
anywhere: the shape of every `hash_arg` result. -/
def hashShaped : Value → Bool
  | .intV _ => true
  | .boolV _ => true
  | .strV _ => true
  | .noneV => true
  | .dtypeObj _ => true
  | .tupleV xs => hashShapedList xs
  | _ => false

def hashShapedList : List Value → Bool
  | [] => true
  | x :: xs => hashShaped x && hashShapedList xs

end

theorem hashShapedList_append {xs ys : List Value} (hx : hashShapedList xs = true)
    (hy : hashShapedList ys = true) : hashShapedList (xs ++ ys) = true := by
  induction xs with
  | nil => simpa using hy
  | cons a as ih =>
    simp only [hashShapedList, Bool.and_eq_true] at hx
    simp only [List.cons_append, hashShapedList, Bool.and_eq_true]
    exact ⟨hx.1, ih hx.2⟩

theorem hashShapedList_of_map_intV (ns : List Nat) :
    hashShapedList (ns.map natVal) = true := by
  induction ns with
  | nil => simp [hashShapedList]
  | cons n ns ih => simp [hashShapedList, hashShaped, natVal, ih]

theorem hashShaped_hashTensor (t : Tensor) : hashShaped (hashTensor t) = true := by
  have h1 : hashShaped (optIndexVal t.deviceIndex) = true := by
    cases t.deviceIndex <;> simp [optIndexVal, hashShaped]
  have h3 : hashShaped (if t.deviceType = "cpu" ∧ t.numel = 1
      then Value.intV t.item else Value.noneV) = true := by
    split <;> simp [hashShaped]
  simp [hashTensor, hashShaped, hashShapedList, h1, h3,
    hashShapedList_of_map_intV t.shape]

mutual

theorem hashShaped_rehash : ∀ v : Value, hashShaped (rehash v) = true
  | .tensor t => by simpa [rehash] using hashShaped_hashTensor t
  | .intV n => by simp [rehash, hashShaped]
  | .boolV b => by simp [rehash, hashShaped]
  | .strV s => by simp [rehash, hashShaped]
  | .listV xs => by simp [rehash, hashShaped, hashShaped_rehashList xs]
  | .tupleV xs => by simp [rehash, hashShaped, hashShaped_rehashList xs]
  | .dictV es => by simp [rehash, hashShaped]
  | .noneV => by simp [rehash, hashShaped]
  | .dtypeObj n => by simp [rehash, hashShaped]
  | .otherV n => by simp [rehash, hashShaped]

theorem hashShaped_rehashList : ∀ xs : List Value, hashShapedList (rehashList xs) = true
  | [] => by simp [rehashList, hashShapedList]
  | x :: xs => by
    simp [rehashList, hashShapedList, hashShaped_rehash x, hashShaped_rehashList xs]

end

theorem hashShapedList_of_map_rehashPair (l : List (String × Value)) :
    hashShapedList (l.map rehashPair) = true := by
  induction l with
  | nil => simp [hashShapedList]
  | cons kv l ih =>
    simp [rehashPair, hashShapedList, hashShaped, ih, hashShaped_rehash kv.2]

mutual

theorem hashShaped_hash_arg : ∀ v : Value, hashShaped (hash_arg v) = true
  | .tensor t => by simpa [hash_arg] using hashShaped_hashTensor t
  | .intV n => by simp [hash_arg, hashShaped]
  | .boolV b => by simp [hash_arg, hashShaped]
  | .strV s => by simp [hash_arg, hashShaped]
  | .listV xs => by simp [hash_arg, hashShaped, hashShaped_hashList xs]
  | .tupleV xs => by simp [hash_arg, hashShaped, hashShaped_hashList xs]
  | .dictV es => by simp [hash_arg, hashShaped, hashShapedList_of_map_rehashPair]
  | .noneV => by simp [hash_arg, hashShaped]
  | .dtypeObj n => by simp [hash_arg, hashShaped]
  | .otherV n => by simp [hash_arg, hashShaped]

theorem hashShaped_hashList : ∀ xs : List Value, hashShapedList (hashList xs) = true
  | [] => by simp [hashList, hashShapedList]
  | x :: xs => by
    simp [hashList, hashShapedList, hashShaped_hash_arg x, hashShaped_hashList xs]

end

mutual

theorem hash_arg_eq_rehash_of_hashShaped :
    ∀ v : Value, hashShaped v = true → hash_arg v = rehash v
  | .intV n, _ => rfl
  | .boolV b, _ => rfl
  | .strV s, _ => rfl
  | .noneV, _ => rfl
  | .dtypeObj n, _ => rfl
  | .tupleV xs, h => by
    simp only [hashShaped] at h
    simp [hash_arg, rehash, hashList_eq_rehashList_of_hashShaped xs h]

theorem hashList_eq_rehashList_of_hashShaped :
    ∀ xs : List Value, hashShapedList xs = true → hashList xs = rehashList xs
  | [], _ => rfl
  | x :: xs, h => by
    simp only [hashShapedList, Bool.and_eq_true] at h
    simp [hashList, rehashList, hash_arg_eq_rehash_of_hashShaped x h.1,
      hashList_eq_rehashList_of_hashShaped xs h.2]

end

/-- Faithfulness of the embedding of the dict branch of `hash_arg`: applying
`hash_arg` a second time, to an earlier `hash_arg` result, is exactly
`rehash`, so mapping `rehashPair` over the sorted pairs is exactly the
source's `tuple(map(hash_arg, sorted(...)))`. -/
theorem hash_arg_self_eq_rehash (v : Value) : hash_arg (hash_arg v) = rehash (hash_arg v) :=
  hash_arg_eq_rehash_of_hashShaped (hash_arg v) (hashShaped_hash_arg v)

/-- Faithfulness of `rehashPair`: `hash_arg` applied to the 2-tuple
`(k, hash_arg v)` built by the dict branch equals `rehashPair (k, hash_arg v)`. -/
theorem hash_arg_pair_eq_rehashPair (k : String) (v : Value) :
    hash_arg (Value.tupleV [Value.strV k, hash_arg v]) = rehashPair (k, hash_arg v) := by
  simp [hash_arg, hashList, rehashPair, hash_arg_self_eq_rehash v]

/-- Association-list lookup, modelling Python dict indexing `d[k]` /
`d.get(k)` on the explicit entry lists that stand for dicts. -/
def assocFind {α β : Type} [DecidableEq α] : List (α × β) → α → Option β
  | [], _ => none
  | (a, b) :: rest, key => if a = key then some b else assocFind rest key

/-- Python `dest.copy_(src)` on tensors: an in-place value copy.  The
destination keeps its buffer address, device and dtype and takes the source's
element data; a shape mismatch raises an error (`none`).  (The source relies
on the engine's `copy_`, which also permits broadcasting and performs dtype
casts; neither is needed by any claim, so the embedding requires equal
shapes and transfers the data unchanged.) -/
def tensorCopy (dest src : Tensor) : Option Tensor :=
  if dest.shape = src.shape then some { dest with data := src.data } else none

mutual

/-- Embedding of `tree_copy_(dest, src)`.  The in-place mutation is modelled
functionally: the result is the value of `dest` after the call, `none` when
the call raises.  Branches, following the source:
a tensor destination is copied into with `copy_` (the source must be a
tensor; any other source raises a TypeError);
a list or tuple destination iterates `zip(dest, src)` — pairing by position
up to the SHORTER of the two lengths, Python `zip` semantics — and recurses
on each pair, leaving any unpaired destination elements untouched (a
non-sequence source raises);
a dict destination recurses on `dest[k], src[k]` for every key of `dest`, a
missing key in `src` raising a KeyError;
any other destination requires `dest == src` (`assert dest == src`), an
AssertionError (`none`) otherwise.  Partial in-place effects performed
before a raise are not modelled; no claim depends on them. -/
def tree_copy_ : Value → Value → Option Value
  | .tensor d, src =>
    match src with
    | .tensor s =>
      match tensorCopy d s with
      | some t => some (.tensor t)
      | none => none
    | _ => none
  | .listV ds, src =>
    match src with
    | .listV ss =>
      match zipCopy ds ss with
      | some rs => some (.listV rs)
      | none => none
    | .tupleV ss =>
      match zipCopy ds ss with
      | some rs => some (.listV rs)
      | none => none
    | _ => none
  | .tupleV ds, src =>
    match src with
    | .listV ss =>
      match zipCopy ds ss with
      | some rs => some (.tupleV rs)
      | none => none
    | .tupleV ss =>
      match zipCopy ds ss with
      | some rs => some (.tupleV rs)
      | none => none
    | _ => none
  | .dictV des, src =>
    match src with
    | .dictV ses =>
      match dictCopy des ses with
      | some rs => some (.dictV rs)
      | none => none
    | _ => none
  | d, s => if Value.beq d s then some d else none

/-- The `for x, y in zip(dest, src)` loop of `tree_copy_`: recurse on pairs
up to the shorter length; unpaired destination elements stay as they are. -/
def zipCopy : List Value → List Value → Option (List Value)
  | [], _ => some []
  | ds, [] => some ds
  | d :: ds, s :: ss =>
    match tree_copy_ d s, zipCopy ds ss with
    | some d2, some rest => some (d2 :: rest)
    | _, _ => none

/-- The `for k in dest: tree_copy_(dest[k], src[k])` loop of `tree_copy_`. -/
def dictCopy : List (String × Value) → List (String × Value) → Option (List (String × Value))
  | [], _ => some []
  | (k, dv) :: rest, src =>
    match assocFind src k with
    | none => none
    | some sv =>
      match tree_copy_ dv sv, dictCopy rest src with
      | some dv2, some rest2 => some ((k, dv2) :: rest2)
      | _, _ => none

end

mutual

/-- Embedding of `get_cuda_device_from_tensors(x)`: depth-first scan for the
first tensor whose `device.type` is `'cuda'`, returning its `device.index`;
`none` when no CUDA tensor is found (and also when the first CUDA tensor's
index is `None`, exactly as `return device.index` behaves). -/
def get_cuda_device_from_tensors : Value → Option Int
  | .tensor t => if t.deviceType = "cuda" then t.deviceIndex else none
  | .listV xs => getCudaFromList xs
  | .tupleV xs => getCudaFromList xs
  | .dictV es => getCudaFromEntries es
  | _ => none

/-- The `for y in x:` loop of `get_cuda_device_from_tensors` over a
list or tuple: first non-`None` recursive result. -/
def getCudaFromList : List Value → Option Int
  | [] => none
  | x :: xs =>
    match get_cuda_device_from_tensors x with
    | some d => some d
    | none => getCudaFromList xs

/-- The `for v in x.values():` loop of `get_cuda_device_from_tensors` over a
dict. -/
def getCudaFromEntries : List (String × Value) → Option Int
  | [] => none
  | (_, v) :: rest =>
    match get_cuda_device_from_tensors v with
    | some d => some d
    | none => getCudaFromEntries rest

end

mutual

/-- Whether a value contains, at any nesting depth, a tensor residing on a
CUDA device.  This is the reviewer-facing predicate for "the argument
structure contains a GPU buffer"; it is not itself part of the source. -/
def hasCudaTensor : Value → Bool
  | .tensor t => decide (t.deviceType = "cuda")
  | .listV xs => hasCudaTensorList xs
  | .tupleV xs => hasCudaTensorList xs
  | .dictV es => hasCudaTensorEntries es
  | _ => false

def hasCudaTensorList : List Value → Bool
  | [] => false
  | x :: xs => hasCudaTensor x || hasCudaTensorList xs

def hasCudaTensorEntries : List (String × Value) → Bool
  | [] => false
  | (_, v) :: rest => hasCudaTensor v || hasCudaTensorEntries rest

end

/-- Device-resolution prefix of `simple_make_graphed_callable`: the function
first computes `get_cuda_device_from_tensors((example_inputs,
example_kwarg_inputs))` and runs `assert cuda_device is not None` BEFORE any
other work (`get_per_device_graph_execution_env` and the capture in
`make_graphed_callable` are only reached afterwards).  The result is the
device index capture proceeds with, `none` standing for the AssertionError
raised before any capture work begins. -/
def simple_make_graphed_callable_device (example_inputs example_kwarg_inputs : Value) :
    Option Int :=
  get_cuda_device_from_tensors (.tupleV [example_inputs, example_kwarg_inputs])

/-- Model of the `GraphExecutionEnv` objects held by the registry.  The
memory pool, stream and lock are opaque driver/runtime resources; each is
modelled by the numeric identity of the freshly created resource, so that
two structurally different environments are two distinct runtime objects.
(The constructor's `device=None` / `stream=None` defaulting never fires on
the registry's call path, which always passes every field explicitly.) -/
structure GraphExecutionEnv where
  mempool : Nat
  device : Int
  stream : Nat
  lockId : Nat
deriving DecidableEq, Repr

/-- The process-wide state behind `_per_device_execution_envs`: the
device-to-environment mapping plus a counter supplying the identities of
freshly created pools/streams/locks. -/
structure RegistryState where
  envs : List (Int × GraphExecutionEnv)
  fresh : Nat
deriving DecidableEq, Repr

/-- Device-argument resolution at the top of
`get_per_device_graph_execution_env`: a `torch.device` argument is reduced
to its index beforehand (not modelled separately — the embedding takes the
index directly), and `None` resolves to `torch.cuda.current_device()`,
passed here explicitly as `current`. -/
def resolve_device (device : Option Int) (current : Int) : Int :=
  device.getD current

/-- Embedding of `get_per_device_graph_execution_env`: under the registry
lock, if the resolved device has no environment yet, create a fresh mempool,
stream and lock and insert a new `GraphExecutionEnv`; return the
environment stored for the device.  The whole lookup-and-insert runs under
`_per_device_execution_envs_lock`, so the sequential state-passing model is
exactly the source's behaviour. -/
def get_per_device_graph_execution_env (st : RegistryState) (device : Option Int)
    (current : Int) : RegistryState × GraphExecutionEnv :=
  let d := resolve_device device current
  match assocFind st.envs d with
  | some env => (st, env)
  | none =>
    let env : GraphExecutionEnv :=
      { mempool := st.fresh, device := d, stream := st.fresh + 1, lockId := st.fresh + 2 }
    ({ envs := (d, env) :: st.envs, fresh := st.fresh + 3 }, env)

/-- The private state of one wrapper built by `make_dynamic_graphed_callable`:
`cached` embeds the `cached_callables` dict (keyed by the fingerprint pair
`(hash_arg(args), hash_arg(kwargs))`, valued by the identity of the captured
replay callable), and `captures` counts how many times the capture path
`simple_make_graphed_callable` has run — each run producing a new replay
callable, identified here by the value of the counter at capture time. -/
structure CacheState where
  cached : List ((Value × Value) × Nat)
  captures : Nat

/-- Equality test on fingerprint keys, modelling the dict-key equality used
by `cached_callables.get(key)`: componentwise structural equality of the two
`hash_arg` results. -/
def keyBeq (a b : Value × Value) : Bool := Value.beq a.1 b.1 && Value.beq a.2 b.2

/-- Lookup in the `cached_callables` dict. -/
def cacheFind : List ((Value × Value) × Nat) → (Value × Value) → Option Nat
  | [], _ => none
  | (k, c) :: rest, key => if keyBeq k key then some c else cacheFind rest key

/-- Embedding of one invocation of the inner `dynamic_graphed_callable`:
compute the fingerprint key, return the cached callable on a hit, and on a
miss run the capture path (incrementing `captures`), insert the new callable
under the key, and return it.  The lock-protected double check of the source
collapses, in this sequential model, to the single lookup modelled here. -/
def dynamic_graphed_call (st : CacheState) (args kwargs : Value) : CacheState × Nat :=
  let key := (hash_arg args, hash_arg kwargs)
  match cacheFind st.cached key with
  | some c => (st, c)
  | none =>
    let c := st.captures
    ({ cached := (key, c) :: st.cached, captures := st.captures + 1 }, c)

mutual

/-- Embedding of `copy.deepcopy` on argument/output structures, threading a
fresh-address counter: every tensor in the copy receives a new storage
buffer (a fresh address at or above the counter) holding the same data; all
other structure and every non-buffer value is reproduced unchanged.
(Python's deepcopy also preserves sharing WITHIN the copied structure via
its memo table; that is not modelled — the claims concern sharing between
the copy and the original, which deepcopy never creates.) -/
def deepcopy : Nat → Value → Nat × Value
  | n, .tensor t => (n + 1, .tensor { t with addr := n })
  | n, .listV xs => ((deepcopyList n xs).1, .listV (deepcopyList n xs).2)
  | n, .tupleV xs => ((deepcopyList n xs).1, .tupleV (deepcopyList n xs).2)
  | n, .dictV es => ((deepcopyEntries n es).1, .dictV (deepcopyEntries n es).2)
  | n, v => (n, v)

def deepcopyList : Nat → List Value → Nat × List Value
  | n, [] => (n, [])
  | n, x :: xs =>
    ((deepcopyList (deepcopy n x).1 xs).1,
      (deepcopy n x).2 :: (deepcopyList (deepcopy n x).1 xs).2)

def deepcopyEntries : Nat → List (String × Value) → Nat × List (String × Value)
  | n, [] => (n, [])
  | n, (k, v) :: rest =>
    ((deepcopyEntries (deepcopy n v).1 rest).1,
      (k, (deepcopy n v).2) :: (deepcopyEntries (deepcopy n v).1 rest).2)

end

mutual

/-- The addresses of all tensor buffers contained in a value: two
structures share a buffer exactly when their address lists intersect. -/
def addrsOf : Value → List Nat
  | .tensor t => [t.addr]
  | .listV xs => addrsOfList xs
  | .tupleV xs => addrsOfList xs
  | .dictV es => addrsOfEntries es
  | _ => []

def addrsOfList : List Value → List Nat
  | [] => []
  | x :: xs => addrsOf x ++ addrsOfList xs

def addrsOfEntries : List (String × Value) → List Nat
  | [] => []
  | (_, v) :: rest => addrsOf v ++ addrsOfEntries rest

end

mutual

/-- A value with every tensor buffer address erased (set to `0`): two values
with equal `stripAddr` images are structurally equal — same nesting, same
scalars, and tensors of the same device, dtype, shape and element data. -/
def stripAddr : Value → Value
  | .tensor t => .tensor { t with addr := 0 }
  | .listV xs => .listV (stripAddrList xs)
  | .tupleV xs => .tupleV (stripAddrList xs)
  | .dictV es => .dictV (stripAddrEntries es)
  | v => v

def stripAddrList : List Value → List Value
  | [] => []
  | x :: xs => stripAddr x :: stripAddrList xs

def stripAddrEntries : List (String × Value) → List (String × Value)
  | [] => []
  | (k, v) :: rest => (k, stripAddr v) :: stripAddrEntries rest

end

/-- Embedding of `_GraphedModule.forward` (with `_forward` inlined), the
replay wrapper built by `make_graphed_callable`: under the environment lock,
copy the live `inputs` into `static_inputs` and the live `kwarg_inputs`
into `static_kwarg_inputs` with `tree_copy_`, replay the graph — an
external GPU effect that overwrites the buffers of `static_outputs` in
place, leaving their structure and addresses unchanged, so it contributes
nothing to this value-level model — and return `copy.deepcopy` of
`static_outputs`.  The result is `none` when either structural copy raises,
and otherwise carries the mutated static inputs, the fresh-address counter
after the deep copy, and the returned output structure. -/
def graphed_forward (staticInputs staticKwargs staticOutputs : Value)
    (inputs kwargs : Value) (n : Nat) : Option (Value × Value × Nat × Value) :=
  match tree_copy_ staticInputs inputs with
  | none => none
  | some si =>
    match tree_copy_ staticKwargs kwargs with
    | none => none
    | some sk =>
      match deepcopy n staticOutputs with
      | (n2, outs) => some (si, sk, n2, outs)

/-- A Python callable as `make_graphed_callable` inspects it for the
training flag: whether it is an instance of `torch.nn.Module`, whether it
exposes a `training` attribute at all, and that attribute's value. -/
structure PyCallable where
  isModule : Bool
  hasTrainingAttr : Bool
  trainingAttr : Bool
deriving DecidableEq, Repr

/-- The first line of `make_graphed_callable`:
`training = getattr(callable, 'training', False) if isinstance(callable,
torch.nn.Module) else False`. -/
def captured_training (c : PyCallable) : Bool :=
  if c.isModule then (if c.hasTrainingAttr then c.trainingAttr else false) else false

/-- The state `_GraphedModule.__init__` fixes for the wrapper's lifetime:
`self.train(training)` records the captured training flag; nothing in the
module ever writes it again. -/
structure GraphedModule where
  trainingMode : Bool
deriving DecidableEq, Repr

/-- The wrapper produced by `make_graphed_callable`, restricted to the
training-mode state the claims inspect. -/
def make_graphed_callable_wrapper (c : PyCallable) : GraphedModule :=
  { trainingMode := captured_training c }

theorem keyBeq_refl (a : Value × Value) : keyBeq a a = true := by
  simp [keyBeq, Value.beq_refl]

/-- A second `dynamic_graphed_callable` invocation whose fingerprint key
equals a previous one's finds the entry in `cached_callables` and changes
nothing: shared workhorse for the caching claims. -/
theorem dynamic_graphed_call_cached (st : CacheState) (a1 k1 a2 k2 : Value)
    (h : (hash_arg a2, hash_arg k2) = (hash_arg a1, hash_arg k1)) :
    dynamic_graphed_call (dynamic_graphed_call st a1 k1).1 a2 k2 =
      dynamic_graphed_call st a1 k1 := by
  cases hf : cacheFind st.cached (hash_arg a1, hash_arg k1) with
  | some c =>
    have h1 : dynamic_graphed_call st a1 k1 = (st, c) := by
      simp [dynamic_graphed_call, hf]
    rw [h1]
    simp [dynamic_graphed_call, h, hf]
  | none =>
    have h1 : dynamic_graphed_call st a1 k1 =
        ({ cached := ((hash_arg a1, hash_arg k1), st.captures) :: st.cached,
           captures := st.captures + 1 }, st.captures) := by
      simp [dynamic_graphed_call, hf]
    rw [h1]
    simp [dynamic_graphed_call, h, cacheFind, keyBeq_refl]

/-- C3: for every wrapped callable, at most one capture per fingerprint — a
second invocation whose arguments fingerprint equal to a previous
invocation's returns the same cached replay callable, leaves the capture
counter unchanged (the capture path `simple_make_graphed_callable` is not
invoked again) and leaves the whole cache state unchanged. -/
theorem dynamic_cache_at_most_one_capture (st : CacheState) (a1 k1 a2 k2 : Value)
    (h : (hash_arg a2, hash_arg k2) = (hash_arg a1, hash_arg k1)) :
    (dynamic_graphed_call (dynamic_graphed_call st a1 k1).1 a2 k2).2 =
        (dynamic_graphed_call st a1 k1).2 ∧
      (dynamic_graphed_call (dynamic_graphed_call st a1 k1).1 a2 k2).1.captures =
        (dynamic_graphed_call st a1 k1).1.captures ∧
      (dynamic_graphed_call (dynamic_graphed_call st a1 k1).1 a2 k2).1 =
        (dynamic_graphed_call st a1 k1).1 := by
  rw [dynamic_graphed_call_cached st a1 k1 a2 k2 h]
  exact ⟨rfl, rfl, rfl⟩

/-- Witness for C3 at a concrete wrapped call: a CUDA tensor argument,
called twice with an identical fingerprint. -/
theorem dynamic_cache_at_most_one_capture_wit :
    ((hash_arg (Value.tupleV [Value.tensor
          { deviceType := "cuda", deviceIndex := some 0, dtype := 0,
            shape := [4], data := [1, 2, 3, 4], addr := 0 }]),
        hash_arg (Value.dictV [])) =
      (hash_arg (Value.tupleV [Value.tensor
          { deviceType := "cuda", deviceIndex := some 0, dtype := 0,
            shape := [4], data := [1, 2, 3, 4], addr := 0 }]),
        hash_arg (Value.dictV []))) ∧
    ((dynamic_graphed_call (dynamic_graphed_call { cached := [], captures := 0 }
          (Value.tupleV [Value.tensor
            { deviceType := "cuda", deviceIndex := some 0, dtype := 0,
              shape := [4], data := [1, 2, 3, 4], addr := 0 }])
          (Value.dictV [])).1
        (Value.tupleV [Value.tensor
          { deviceType := "cuda", deviceIndex := some 0, dtype := 0,
            shape := [4], data := [1, 2, 3, 4], addr := 0 }])
        (Value.dictV [])).2 =
      (dynamic_graphed_call { cached := [], captures := 0 }
        (Value.tupleV [Value.tensor
          { deviceType := "cuda", deviceIndex := some 0, dtype := 0,
            shape := [4], data := [1, 2, 3, 4], addr := 0 }])
        (Value.dictV [])).2 ∧
      (dynamic_graphed_call (dynamic_graphed_call { cached := [], captures := 0 }
          (Value.tupleV [Value.tensor
            { deviceType := "cuda", deviceIndex := some 0, dtype := 0,
              shape := [4], data := [1, 2, 3, 4], addr := 0 }])
          (Value.dictV [])).1
        (Value.tupleV [Value.tensor
          { deviceType := "cuda", deviceIndex := some 0, dtype := 0,
            shape := [4], data := [1, 2, 3, 4], addr := 0 }])
        (Value.dictV [])).1.captures =
      (dynamic_graphed_call { cached := [], captures := 0 }
        (Value.tupleV [Value.tensor
          { deviceType := "cuda", deviceIndex := some 0, dtype := 0,
            shape := [4], data := [1, 2, 3, 4], addr := 0 }])
        (Value.dictV [])).1.captures ∧
      (dynamic_graphed_call (dynamic_graphed_call { cached := [], captures := 0 }
          (Value.tupleV [Value.tensor
            { deviceType := "cuda", deviceIndex := some 0, dtype := 0,
              shape := [4], data := [1, 2, 3, 4], addr := 0 }])
          (Value.dictV [])).1
        (Value.tupleV [Value.tensor
          { deviceType := "cuda", deviceIndex := some 0, dtype := 0,
            shape := [4], data := [1, 2, 3, 4], addr := 0 }])
        (Value.dictV [])).1 =
      (dynamic_graphed_call { cached := [], captures := 0 }
        (Value.tupleV [Value.tensor
          { deviceType := "cuda", deviceIndex := some 0, dtype := 0,
            shape := [4], data := [1, 2, 3, 4], addr := 0 }])
        (Value.dictV [])).1) :=
  ⟨rfl, dynamic_cache_at_most_one_capture _ _ _ _ _ rfl⟩

/-- C10: a list and a tuple with the same elements in the same order produce
identical `hash_arg` fingerprints, so a call passing the list and a later
call passing the equivalent tuple hit the same `cached_callables` entry and
reuse the same captured graph: the second call changes nothing and returns
the callable captured by the first. -/
theorem hash_arg_list_tuple_coincide : ∀ (xs : List Value) (st : CacheState) (kw : Value),
    hash_arg (Value.listV xs) = hash_arg (Value.tupleV xs) ∧
    dynamic_graphed_call (dynamic_graphed_call st (Value.tupleV [Value.listV xs]) kw).1
        (Value.tupleV [Value.tupleV xs]) kw =
      dynamic_graphed_call st (Value.tupleV [Value.listV xs]) kw := by
  intro xs st kw
  have h1 : hash_arg (Value.listV xs) = hash_arg (Value.tupleV xs) := by
    simp [hash_arg]
  refine ⟨h1, dynamic_graphed_call_cached _ _ _ _ _ ?_⟩
  simp [hash_arg, hashList, h1]

/-- C6: the `hash_arg` fingerprint of a tensor is the five-tuple of device
kind, device index, element type, shape, and a fifth field that equals the
tensor's scalar value exactly when the tensor lives on the CPU and holds one
element, and is `None` otherwise. -/
theorem hash_arg_tensor_five_tuple (t : Tensor) :
    hash_arg (Value.tensor t) =
      Value.tupleV [Value.strV t.deviceType, optIndexVal t.deviceIndex,
        Value.dtypeObj t.dtype, Value.tupleV (t.shape.map natVal),
        if t.deviceType = "cpu" ∧ t.numel = 1 then Value.intV t.item else Value.noneV] ∧
    ((if t.deviceType = "cpu" ∧ t.numel = 1 then Value.intV t.item else Value.noneV) =
        Value.intV t.item ↔ t.deviceType = "cpu" ∧ t.numel = 1) := by
  constructor
  · simp [hash_arg, hashTensor]
  · split
    · next hc => simp [hc]
    · next hc =>
      constructor
      · intro hh
        simp at hh
      · intro hh
        exact absurd hh hc

/-- C2 (code-bug evaluation): two keyword-argument dicts whose tensors
differ only in dtype fingerprint identically, because the dict branch of
`hash_arg` re-applies `hash_arg` to each sorted `(key, fingerprint)` pair
and a `torch.dtype` object falls through every `isinstance` test to the
`return None` wildcard — erasing the dtype that the tensor branch had
recorded. -/
theorem hash_arg_dict_dtype_collapsed :
    hash_arg (Value.dictV [("x", Value.tensor
        { deviceType := "cuda", deviceIndex := some 0, dtype := 0,
          shape := [4], data := [1, 2, 3, 4], addr := 0 })]) =
      hash_arg (Value.dictV [("x", Value.tensor
        { deviceType := "cuda", deviceIndex := some 0, dtype := 1,
          shape := [4], data := [1, 2, 3, 4], addr := 0 })]) ∧
    ({ deviceType := "cuda", deviceIndex := some 0, dtype := 0,
       shape := [4], data := [1, 2, 3, 4], addr := 0 } : Tensor).dtype ≠
      ({ deviceType := "cuda", deviceIndex := some 0, dtype := 1,
         shape := [4], data := [1, 2, 3, 4], addr := 0 } : Tensor).dtype := by
  constructor
  · simp [hash_arg, hashEntries, hashTensor, rehashPair, rehash, rehashList,
      optIndexVal, natVal]
  · decide

/-- C1 (counterexample): `tree_copy_` with a two-element list destination and
a one-element source succeeds — returning the destination with only the
paired prefix processed — instead of failing with a contract-violation
error: Python `zip` silently truncates. -/
theorem tree_copy_truncation_cex :
    tree_copy_ (Value.listV [Value.intV 1, Value.intV 2]) (Value.listV [Value.intV 1]) =
      some (Value.listV [Value.intV 1, Value.intV 2]) := by
  simp [tree_copy_, zipCopy, Value.beq]

theorem zipCopy_int_prefix : ∀ (ss ds : List Int), ds.take ss.length = ss →
    zipCopy (ds.map Value.intV) (ss.map Value.intV) = some (ds.map Value.intV)
  | [], ds, _ => by cases ds <;> simp [zipCopy]
  | s :: ss, [], h => by simp at h
  | s :: ss, d :: ds, h => by
    rw [List.length_cons, List.take_succ_cons, List.cons.injEq] at h
    obtain ⟨rfl, h2⟩ := h
    simp [zipCopy, tree_copy_, Value.beq, zipCopy_int_prefix ss ds h2]

/-- C1 (amended): when the destination of `tree_copy_` is an ordered
sequence and the source is strictly shorter but agrees with the paired
prefix of the destination, the call SUCCEEDS and leaves the destination
unchanged — pairing stops at the shorter length (Python `zip` semantics),
the unpaired destination suffix is untouched and no error is raised. -/
theorem tree_copy_silent_truncation (ds ss : List Int)
    (_h : ss.length < ds.length) (h2 : ds.take ss.length = ss) :
    tree_copy_ (Value.listV (ds.map Value.intV)) (Value.listV (ss.map Value.intV)) =
      some (Value.listV (ds.map Value.intV)) := by
  simp [tree_copy_, zipCopy_int_prefix ss ds h2]

/-- Witness for the amended C1 at destination `[1, 2]` and source `[1]`. -/
theorem tree_copy_silent_truncation_wit :
    ([(1 : Int)].length < [(1 : Int), 2].length) ∧
    ([(1 : Int), 2].take [(1 : Int)].length = [1]) ∧
    tree_copy_ (Value.listV ([(1 : Int), 2].map Value.intV))
        (Value.listV ([(1 : Int)].map Value.intV)) =
      some (Value.listV ([(1 : Int), 2].map Value.intV)) :=
  ⟨by decide, by decide,
    tree_copy_silent_truncation [1, 2] [1] (by decide) (by decide)⟩

/-- C9 (counterexample): a callable that is NOT an instance of
`torch.nn.Module` but exposes a `training` attribute set to `True` is
recorded by `make_graphed_callable` as `training = False`, so the replay
wrapper does not observe the callable's mode. -/
theorem training_mode_nonmodule_cex :
    (make_graphed_callable_wrapper
        { isModule := false, hasTrainingAttr := true, trainingAttr := true }).trainingMode ≠
      ({ isModule := false, hasTrainingAttr := true, trainingAttr := true } :
        PyCallable).trainingAttr := by
  decide

/-- C9 (amended): `make_graphed_callable` records the callable's training
mode only when the callable is an instance of `torch.nn.Module` — the
wrapper then observes `getattr(callable, 'training', False)` for its
lifetime — while every other callable, even one exposing a `training`
attribute, is recorded as `training = False`. -/
theorem training_mode_module_only (c : PyCallable) :
    (c.isModule = true →
      (make_graphed_callable_wrapper c).trainingMode =
        (if c.hasTrainingAttr then c.trainingAttr else false)) ∧
    (c.isModule = false → (make_graphed_callable_wrapper c).trainingMode = false) := by
  constructor <;> intro h <;>
    simp [make_graphed_callable_wrapper, captured_training, h]

/-- Witness for the amended C9: a module in training mode is recorded as
training; a non-module callable is recorded as not training. -/
theorem training_mode_module_only_wit :
    (make_graphed_callable_wrapper
        { isModule := true, hasTrainingAttr := true, trainingAttr := true }).trainingMode =
      (if true then true else false) ∧
    (make_graphed_callable_wrapper
        { isModule := false, hasTrainingAttr := true, trainingAttr := true }).trainingMode =
      false :=
  ⟨(training_mode_module_only _).1 rfl, (training_mode_module_only _).2 rfl⟩

theorem assocFind_cons_self {α β : Type} [DecidableEq α] (l : List (α × β)) (k : α) (b : β) :
    assocFind ((k, b) :: l) k = some b := by
  simp [assocFind]

theorem assocFind_none_not_mem {α β : Type} [DecidableEq α] :
    ∀ (l : List (α × β)) (k : α), assocFind l k = none → k ∉ l.map Prod.fst
  | [], k, _ => by simp
  | (a, b) :: rest, k, h => by
    simp only [assocFind] at h
    split at h
    · exact absurd h (by simp)
    · next hne =>
      simp only [List.map_cons, List.mem_cons]
      intro hc
      cases hc with
      | inl hh => exact hne hh.symm
      | inr hh => exact assocFind_none_not_mem rest k h hh

/-- C4: the execution-environment registry keeps at most one environment per
device index.  For any registry state: every existing entry survives a call
unchanged (environments are never removed, replaced or mutated), after the
call the resolved device maps to exactly the environment the call returned,
repeating the call returns the very same environment with no state change,
and distinctness of the device keys is preserved, so each device has at most
one environment. -/
theorem registry_single_env_per_device (st : RegistryState) (dev : Option Int) (cur : Int) :
    (∀ e ∈ st.envs, e ∈ (get_per_device_graph_execution_env st dev cur).1.envs) ∧
    assocFind (get_per_device_graph_execution_env st dev cur).1.envs
        (resolve_device dev cur) =
      some (get_per_device_graph_execution_env st dev cur).2 ∧
    get_per_device_graph_execution_env
        (get_per_device_graph_execution_env st dev cur).1 dev cur =
      get_per_device_graph_execution_env st dev cur ∧
    ((st.envs.map Prod.fst).Nodup →
      ((get_per_device_graph_execution_env st dev cur).1.envs.map Prod.fst).Nodup) := by
  cases hf : assocFind st.envs (resolve_device dev cur) with
  | some env =>
    have h1 : get_per_device_graph_execution_env st dev cur = (st, env) := by
      simp [get_per_device_graph_execution_env, hf]
    rw [h1]
    exact ⟨fun e he => he, hf, h1, fun hnd => hnd⟩
  | none =>
    have h1 : get_per_device_graph_execution_env st dev cur =
        ({ envs := (resolve_device dev cur,
              { mempool := st.fresh, device := resolve_device dev cur,
                stream := st.fresh + 1, lockId := st.fresh + 2 }) :: st.envs,
           fresh := st.fresh + 3 },
         { mempool := st.fresh, device := resolve_device dev cur,
           stream := st.fresh + 1, lockId := st.fresh + 2 }) := by
      simp [get_per_device_graph_execution_env, hf]
    rw [h1]
    refine ⟨fun e he => List.mem_cons_of_mem _ he, assocFind_cons_self _ _ _, ?_, ?_⟩
    · simp [get_per_device_graph_execution_env, assocFind]
    · intro hnd
      simp only [List.map_cons, List.nodup_cons]
      exact ⟨assocFind_none_not_mem st.envs _ hf, hnd⟩

/-- Witness for C4 on the empty registry at device 0: the created
environment is found again and a repeated call changes nothing. -/
theorem registry_single_env_per_device_wit :
    assocFind (get_per_device_graph_execution_env { envs := [], fresh := 0 }
        (some 0) 0).1.envs (resolve_device (some 0) 0) =
      some (get_per_device_graph_execution_env { envs := [], fresh := 0 } (some 0) 0).2 ∧
    get_per_device_graph_execution_env
        (get_per_device_graph_execution_env { envs := [], fresh := 0 } (some 0) 0).1
        (some 0) 0 =
      get_per_device_graph_execution_env { envs := [], fresh := 0 } (some 0) 0 ∧
    ((get_per_device_graph_execution_env { envs := [], fresh := 0 }
        (some 0) 0).1.envs.map Prod.fst).Nodup :=
  ⟨(registry_single_env_per_device { envs := [], fresh := 0 } (some 0) 0).2.1,
   (registry_single_env_per_device { envs := [], fresh := 0 } (some 0) 0).2.2.1,
   (registry_single_env_per_device { envs := [], fresh := 0 } (some 0) 0).2.2.2 (by decide)⟩

theorem hashEntries_eq_map : ∀ es : List (String × Value),
    hashEntries es = es.map fun kv => (kv.1, hash_arg kv.2)
  | [] => rfl
  | (k, v) :: rest => by simp [hashEntries, hashEntries_eq_map rest]

theorem map_fst_hashEntries (es : List (String × Value)) :
    (hashEntries es).map Prod.fst = es.map Prod.fst := by
  rw [hashEntries_eq_map, List.map_map]
  rfl

/-- Sorting by key sends any two permuted entry lists with pairwise distinct
keys to the same list: shared workhorse for the key-order claim. -/
theorem insertionSort_eq_of_perm (m1 m2 : List (String × Value)) (hperm : m1.Perm m2)
    (hnd : m1.Pairwise fun p q => p.1 ≠ q.1) :
    List.insertionSort keyLE m1 = List.insertionSort keyLE m2 := by
  have hp1 := List.perm_insertionSort keyLE m1
  have hp2 := List.perm_insertionSort keyLE m2
  have hperm2 : (List.insertionSort keyLE m1).Perm (List.insertionSort keyLE m2) :=
    hp1.trans (hperm.trans hp2.symm)
  have hs1 : (List.insertionSort keyLE m1).Sorted keyLE :=
    List.sorted_insertionSort keyLE m1
  have hs2 : (List.insertionSort keyLE m2).Sorted keyLE :=
    List.sorted_insertionSort keyLE m2
  have hsym : ∀ {p q : String × Value}, p.1 ≠ q.1 → q.1 ≠ p.1 :=
    fun hh => Ne.symm hh
  have hnd1 : (List.insertionSort keyLE m1).Pairwise fun p q => p.1 ≠ q.1 :=
    (hp1.pairwise_iff hsym).mpr hnd
  have hnd2 : (List.insertionSort keyLE m2).Pairwise fun p q => p.1 ≠ q.1 :=
    (hp2.pairwise_iff hsym).mpr ((hperm.pairwise_iff hsym).mp hnd)
  have hlt1 : (List.insertionSort keyLE m1).Sorted keyLT :=
    (hs1.and hnd1).imp fun hab => lt_of_le_of_ne hab.1 hab.2
  have hlt2 : (List.insertionSort keyLE m2).Sorted keyLT :=
    (hs2.and hnd2).imp fun hab => lt_of_le_of_ne hab.1 hab.2
  exact List.eq_of_perm_of_sorted hperm2 hlt1 hlt2

/-- C5: two dicts with the same key-value contents in different entry orders
fingerprint identically — `hash_arg` sorts the `(key, fingerprint)` pairs by
key before tupling, so key-iteration order cannot cause a cache miss.  (The
distinct-keys hypothesis is the Python dict invariant.) -/
theorem hash_arg_dict_key_order (e1 e2 : List (String × Value))
    (hperm : e1.Perm e2) (hnd : (e1.map Prod.fst).Nodup) :
    hash_arg (Value.dictV e1) = hash_arg (Value.dictV e2) := by
  have hm : (hashEntries e1).Perm (hashEntries e2) := by
    rw [hashEntries_eq_map, hashEntries_eq_map]
    exact hperm.map _
  have hnd1 : (hashEntries e1).Pairwise fun p q => p.1 ≠ q.1 := by
    have h2 : ((hashEntries e1).map Prod.fst).Nodup := by
      rw [map_fst_hashEntries]
      exact hnd
    exact List.pairwise_map.mp h2
  have hsort := insertionSort_eq_of_perm (hashEntries e1) (hashEntries e2) hm hnd1
  simp [hash_arg, hsort]

/-- Witness for C5: the dicts `{a: 1, b: 2}` and `{b: 2, a: 1}` fingerprint
identically. -/
theorem hash_arg_dict_key_order_wit :
    ([("a", Value.intV 1), ("b", Value.intV 2)].map Prod.fst).Nodup ∧
    hash_arg (Value.dictV [("a", Value.intV 1), ("b", Value.intV 2)]) =
      hash_arg (Value.dictV [("b", Value.intV 2), ("a", Value.intV 1)]) :=
  ⟨by decide, hash_arg_dict_key_order _ _ (List.Perm.swap _ _ _) (by decide)⟩

mutual

theorem getCuda_none_of_not_has : ∀ v : Value, hasCudaTensor v = false →
    get_cuda_device_from_tensors v = none
  | .tensor t, h => by
    simp only [hasCudaTensor, decide_eq_false_iff_not] at h
    simp [get_cuda_device_from_tensors, h]
  | .listV xs, h => by
    simp only [hasCudaTensor] at h
    simp [get_cuda_device_from_tensors, getCudaFromList_none_of_not_has xs h]
  | .tupleV xs, h => by
    simp only [hasCudaTensor] at h
    simp [get_cuda_device_from_tensors, getCudaFromList_none_of_not_has xs h]
  | .dictV es, h => by
    simp only [hasCudaTensor] at h
    simp [get_cuda_device_from_tensors, getCudaFromEntries_none_of_not_has es h]
  | .intV m, _ => rfl
  | .boolV b, _ => rfl
  | .strV s, _ => rfl
  | .noneV, _ => rfl
  | .dtypeObj m, _ => rfl
  | .otherV m, _ => rfl

theorem getCudaFromList_none_of_not_has : ∀ xs : List Value,
    hasCudaTensorList xs = false → getCudaFromList xs = none
  | [], _ => rfl
  | x :: xs, h => by
    simp only [hasCudaTensorList, Bool.or_eq_false_iff] at h
    simp [getCudaFromList, getCuda_none_of_not_has x h.1,
      getCudaFromList_none_of_not_has xs h.2]

theorem getCudaFromEntries_none_of_not_has : ∀ es : List (String × Value),
    hasCudaTensorEntries es = false → getCudaFromEntries es = none
  | [], _ => rfl
  | (k, v) :: rest, h => by
    simp only [hasCudaTensorEntries, Bool.or_eq_false_iff] at h
    simp [getCudaFromEntries, getCuda_none_of_not_has v h.1,
      getCudaFromEntries_none_of_not_has rest h.2]

end

/-- C7: when the example arguments contain no CUDA-resident tensor at any
nesting depth, `simple_make_graphed_callable` resolves no device and its
`assert cuda_device is not None` fails — the call raises before any capture
work (`get_per_device_graph_execution_env`, warm-up, recording) begins. -/
theorem simple_graphed_requires_cuda (inp kw : Value)
    (h1 : hasCudaTensor inp = false) (h2 : hasCudaTensor kw = false) :
    simple_make_graphed_callable_device inp kw = none := by
  have h3 : hasCudaTensor (Value.tupleV [inp, kw]) = false := by
    simp [hasCudaTensor, hasCudaTensorList, h1, h2]
  simpa [simple_make_graphed_callable_device] using
    getCuda_none_of_not_has (Value.tupleV [inp, kw]) h3

/-- Witness for C7: a CPU tensor argument and empty keyword arguments fail
the device resolution. -/
theorem simple_graphed_requires_cuda_wit :
    hasCudaTensor (Value.tupleV [Value.tensor
        { deviceType := "cpu", deviceIndex := none, dtype := 0,
          shape := [4], data := [1, 2, 3, 4], addr := 0 }]) = false ∧
    hasCudaTensor (Value.dictV []) = false ∧
    simple_make_graphed_callable_device
        (Value.tupleV [Value.tensor
          { deviceType := "cpu", deviceIndex := none, dtype := 0,
            shape := [4], data := [1, 2, 3, 4], addr := 0 }])
        (Value.dictV []) = none := by
  refine ⟨?_, ?_, ?_⟩
  · simp [hasCudaTensor, hasCudaTensorList]
  · simp [hasCudaTensor, hasCudaTensorEntries]
  · exact simple_graphed_requires_cuda _ _
      (by simp [hasCudaTensor, hasCudaTensorList])
      (by simp [hasCudaTensor, hasCudaTensorEntries])

mutual

theorem deepcopy_counter_le : ∀ (n : Nat) (v : Value), n ≤ (deepcopy n v).1
  | n, .tensor t => by simp only [deepcopy]; omega
  | n, .listV xs => by
    simp only [deepcopy]
    exact deepcopyList_counter_le n xs
  | n, .tupleV xs => by
    simp only [deepcopy]
    exact deepcopyList_counter_le n xs
  | n, .dictV es => by
    simp only [deepcopy]
    exact deepcopyEntries_counter_le n es
  | n, .intV m => le_refl n
  | n, .boolV b => le_refl n
  | n, .strV c => le_refl n
  | n, .noneV => le_refl n
  | n, .dtypeObj m => le_refl n
  | n, .otherV m => le_refl n

theorem deepcopyList_counter_le : ∀ (n : Nat) (xs : List Value), n ≤ (deepcopyList n xs).1
  | n, [] => le_refl n
  | n, x :: xs => by
    simp only [deepcopyList]
    exact le_trans (deepcopy_counter_le n x) (deepcopyList_counter_le (deepcopy n x).1 xs)

theorem deepcopyEntries_counter_le : ∀ (n : Nat) (es : List (String × Value)),
    n ≤ (deepcopyEntries n es).1
  | n, [] => le_refl n
  | n, (k, v) :: rest => by
    simp only [deepcopyEntries]
    exact le_trans (deepcopy_counter_le n v)
      (deepcopyEntries_counter_le (deepcopy n v).1 rest)

end

mutual

theorem deepcopy_addrs_ge : ∀ (n : Nat) (v : Value) (a : Nat),
    a ∈ addrsOf (deepcopy n v).2 → n ≤ a
  | n, .tensor t, a => by
    simp only [deepcopy, addrsOf, List.mem_singleton]
    omega
  | n, .listV xs, a => by
    simp only [deepcopy, addrsOf]
    exact deepcopyList_addrs_ge n xs a
  | n, .tupleV xs, a => by
    simp only [deepcopy, addrsOf]
    exact deepcopyList_addrs_ge n xs a
  | n, .dictV es, a => by
    simp only [deepcopy, addrsOf]
    exact deepcopyEntries_addrs_ge n es a
  | n, .intV m, a => by simp [deepcopy, addrsOf]
  | n, .boolV b, a => by simp [deepcopy, addrsOf]
  | n, .strV c, a => by simp [deepcopy, addrsOf]
  | n, .noneV, a => by simp [deepcopy, addrsOf]
  | n, .dtypeObj m, a => by simp [deepcopy, addrsOf]
  | n, .otherV m, a => by simp [deepcopy, addrsOf]

theorem deepcopyList_addrs_ge : ∀ (n : Nat) (xs : List Value) (a : Nat),
    a ∈ addrsOfList (deepcopyList n xs).2 → n ≤ a
  | n, [], a => by simp [deepcopyList, addrsOfList]
  | n, x :: xs, a => by
    simp only [deepcopyList, addrsOfList, List.mem_append]
    intro h
    cases h with
    | inl h2 => exact deepcopy_addrs_ge n x a h2
    | inr h2 =>
      exact le_trans (deepcopy_counter_le n x)
        (deepcopyList_addrs_ge (deepcopy n x).1 xs a h2)

theorem deepcopyEntries_addrs_ge : ∀ (n : Nat) (es : List (String × Value)) (a : Nat),
    a ∈ addrsOfEntries (deepcopyEntries n es).2 → n ≤ a
  | n, [], a => by simp [deepcopyEntries, addrsOfEntries]
  | n, (k, v) :: rest, a => by
    simp only [deepcopyEntries, addrsOfEntries, List.mem_append]
    intro h
    cases h with
    | inl h2 => exact deepcopy_addrs_ge n v a h2
    | inr h2 =>
      exact le_trans (deepcopy_counter_le n v)
        (deepcopyEntries_addrs_ge (deepcopy n v).1 rest a h2)

end

mutual

theorem stripAddr_deepcopy : ∀ (n : Nat) (v : Value),
    stripAddr (deepcopy n v).2 = stripAddr v
  | n, .tensor t => by simp [deepcopy, stripAddr]
  | n, .listV xs => by simp [deepcopy, stripAddr, stripAddrList_deepcopyList n xs]
  | n, .tupleV xs => by simp [deepcopy, stripAddr, stripAddrList_deepcopyList n xs]
  | n, .dictV es => by simp [deepcopy, stripAddr, stripAddrEntries_deepcopyEntries n es]
  | n, .intV m => rfl
  | n, .boolV b => rfl
  | n, .strV c => rfl
  | n, .noneV => rfl
  | n, .dtypeObj m => rfl
  | n, .otherV m => rfl

theorem stripAddrList_deepcopyList : ∀ (n : Nat) (xs : List Value),
    stripAddrList (deepcopyList n xs).2 = stripAddrList xs
  | n, [] => rfl
  | n, x :: xs => by
    simp [deepcopyList, stripAddrList, stripAddr_deepcopy n x,
      stripAddrList_deepcopyList (deepcopy n x).1 xs]

theorem stripAddrEntries_deepcopyEntries : ∀ (n : Nat) (es : List (String × Value)),
    stripAddrEntries (deepcopyEntries n es).2 = stripAddrEntries es
  | n, [] => rfl
  | n, (k, v) :: rest => by
    simp [deepcopyEntries, stripAddrEntries, stripAddr_deepcopy n v,
      stripAddrEntries_deepcopyEntries (deepcopy n v).1 rest]

end

/-- C8: every invocation of the replay wrapper returns a deep copy of the
static output structure.  Whenever `_GraphedModule.forward` returns (the
structural input copies having succeeded), the returned value is
structurally equal to `static_outputs` at that moment (equal once buffer
addresses are erased — same nesting, scalars, devices, dtypes, shapes and
element data) and shares no buffer with it (its buffer addresses are all
fresh, disjoint from those of `static_outputs`), so a later replay's
in-place overwrite of the static buffers can never be observed through a
previously returned value. -/
theorem graphed_forward_output_fresh (si sk so inp kw : Value) (n : Nat)
    (r : Value × Value × Nat × Value)
    (hwf : ∀ a ∈ addrsOf so, a < n)
    (h : graphed_forward si sk so inp kw n = some r) :
    stripAddr r.2.2.2 = stripAddr so ∧ ∀ a ∈ addrsOf r.2.2.2, a ∉ addrsOf so := by
  unfold graphed_forward at h
  cases h1 : tree_copy_ si inp with
  | none => rw [h1] at h; cases h
  | some si2 =>
    rw [h1] at h
    cases h2 : tree_copy_ sk kw with
    | none => rw [h2] at h; cases h
    | some sk2 =>
      rw [h2] at h
      cases hp : deepcopy n so with
      | mk n2 outs =>
        rw [hp] at h
        cases h
        have hs := stripAddr_deepcopy n so
        rw [hp] at hs
        refine ⟨hs, fun a ha hmem => ?_⟩
        have h3 : n ≤ a := deepcopy_addrs_ge n so a (by rw [hp]; exact ha)
        have h4 : a < n := hwf a hmem
        omega

/-- Witness for C8: replaying with a single static output tensor at address
0 returns a structurally equal tensor at the fresh address 1. -/
theorem graphed_forward_output_fresh_wit :
    (∀ a ∈ addrsOf (Value.tensor
        { deviceType := "cuda", deviceIndex := some 0, dtype := 0,
          shape := [1], data := [5], addr := 0 }), a < 1) ∧
    graphed_forward Value.noneV Value.noneV
        (Value.tensor
          { deviceType := "cuda", deviceIndex := some 0, dtype := 0,
            shape := [1], data := [5], addr := 0 })
        Value.noneV Value.noneV 1 =
      some (Value.noneV, Value.noneV, 2, Value.tensor
        { deviceType := "cuda", deviceIndex := some 0, dtype := 0,
          shape := [1], data := [5], addr := 1 }) ∧
    (stripAddr (Value.tensor
        { deviceType := "cuda", deviceIndex := some 0, dtype := 0,
          shape := [1], data := [5], addr := 1 }) =
      stripAddr (Value.tensor
        { deviceType := "cuda", deviceIndex := some 0, dtype := 0,
          shape := [1], data := [5], addr := 0 }) ∧
      ∀ a ∈ addrsOf (Value.tensor
          { deviceType := "cuda", deviceIndex := some 0, dtype := 0,
            shape := [1], data := [5], addr := 1 }),
        a ∉ addrsOf (Value.tensor
          { deviceType := "cuda", deviceIndex := some 0, dtype := 0,
            shape := [1], data := [5], addr := 0 })) := by
  have hwf : ∀ a ∈ addrsOf (Value.tensor
      { deviceType := "cuda", deviceIndex := some 0, dtype := 0,
        shape := [1], data := [5], addr := 0 }), a < 1 := by
    intro a ha
    simp [addrsOf] at ha
    omega
  have hev : graphed_forward Value.noneV Value.noneV
      (Value.tensor
        { deviceType := "cuda", deviceIndex := some 0, dtype := 0,
          shape := [1], data := [5], addr := 0 })
      Value.noneV Value.noneV 1 =
      some (Value.noneV, Value.noneV, 2, Value.tensor
        { deviceType := "cuda", deviceIndex := some 0, dtype := 0,
          shape := [1], data := [5], addr := 1 }) := by
    simp [graphed_forward, tree_copy_, Value.beq, deepcopy]
  exact ⟨hwf, hev, graphed_forward_output_fresh _ _ _ _ _ _ _ hwf hev⟩

end SFast
